import Mathlib

/-!
Verification of the document-outline inference engine of
`Challange_1a/simple_pdf_extractor.py` (class `MultilingualPDFHeadingExtractor`).

The Python code is shallowly embedded: text is `String` / `List Char`,
font sizes and coordinates are `ℚ` (the source rounds sizes to one decimal
and compares them with exact `==`/`<=`; float literals such as `0.4`, `1.3`,
`0.15` are embedded as the corresponding rationals), fallible upstream
extraction is an `Except` value, and Python's `None`-returning classifiers
return `Option`.  Regular expressions used by the source are fixed patterns
and are embedded as hand-written matchers over `List Char` with the same
semantics on the relevant alphabet.  Python's `str.strip` / `\s` are embedded
with `Char.isWhitespace` (agreeing on ASCII input).
-/

namespace PDFExtractor

/-! ## Character and string utilities shared by the embedded functions -/

/-- Whitespace test used to embed Python's `str.strip` and the regex class `\s`. -/
def isWS (c : Char) : Bool := c.isWhitespace

/-- ASCII digit test, embedding the regex class `\d` on the source's input. -/
def isDig (c : Char) : Bool := c.isDigit

/-- Embeds Python `str.strip()` on a character list: drop whitespace at both ends. -/
def stripChars (l : List Char) : List Char :=
  ((l.dropWhile isWS).reverse.dropWhile isWS).reverse

/-- Embeds Python `str.strip()` on a `String`. -/
def strip (s : String) : String := ⟨stripChars s.toList⟩

/-- Embeds Python `str.lower()` (ASCII-faithful). -/
def lower (s : String) : String := ⟨s.toList.map Char.toLower⟩

/-- Decidable list-prefix test used by the hand-written pattern matchers. -/
def prefOf : List Char → List Char → Bool
  | [], _ => true
  | _ :: _, [] => false
  | a :: as, b :: bs => a == b && prefOf as bs

/-- Substring occurrence test, embedding Python's `needle in haystack`. -/
def subOf (needle : List Char) : List Char → Bool
  | [] => prefOf needle []
  | c :: rest => prefOf needle (c :: rest) || subOf needle rest

/-- String-level substring test, embedding Python's `in` on `str`. -/
def containsStr (hay pat : String) : Bool := subOf pat.toList hay.toList

/-! ## Text Cleaner (`_clean_heading_text`, source lines 750-776) -/

/-- Embeds `re.sub(r'\.{2,}.*$', '', text)`: everything from the first run of
two or more dots onwards is removed (leftmost match extends to the end). -/
def dropFromDoubleDot : List Char → List Char
  | '.' :: '.' :: _ => []
  | c :: rest => c :: dropFromDoubleDot rest
  | [] => []

/-- Embeds `re.sub(r'\s+\d+\s*$', '', cleaned)`: a trailing run of
whitespace, then digits, then optional whitespace is removed when present.
The anchored pattern can only match a suffix, and the leftmost match is the
maximal such suffix, which is what the reversed scan below computes. -/
def stripTrailingNum (l : List Char) : List Char :=
  let r0 := l.reverse
  let r1 := r0.dropWhile isWS
  let r2 := r1.dropWhile isDig
  if r1.length = r2.length then l
  else
    let r3 := r2.dropWhile isWS
    if r2.length = r3.length then l
    else r3.reverse

/-- Embeds `re.sub(r'\s+', ' ', cleaned)`: each whitespace run collapses to
one ASCII space. -/
def collapseWS : List Char → List Char
  | [] => []
  | [c] => if isWS c then [' '] else [c]
  | a :: b :: rest =>
    if isWS a then
      if isWS b then collapseWS (b :: rest)
      else ' ' :: b :: collapseWS rest
    else a :: collapseWS (b :: rest)

/-- The `unicode_fixes` replacement table of `_clean_heading_text`.  The
sequential `str.replace` calls of the source are a per-character rewrite
because no replacement string contains a key of the table. -/
def uniFixChar (c : Char) : List Char :=
  if c = '’' then ['\'']
  else if c = '‘' then ['\'']
  else if c = '“' then ['"']
  else if c = '”' then ['"']
  else if c = '–' then ['–']
  else if c = '—' then ['—']
  else if c = '…' then ['.', '.', '.']
  else if c = ' ' then [' ']
  else [c]

/-- Applies the `unicode_fixes` table to a whole character list. -/
def uniFix : List Char → List Char
  | [] => []
  | c :: rest => uniFixChar c ++ uniFix rest

/-- Embeds the final `if not cleaned.endswith(' '): cleaned += ' '` step. -/
def ensure_trailing_space (cleaned : List Char) : String :=
  if cleaned.getLast? = some ' ' then ⟨cleaned⟩ else ⟨cleaned ++ [' ']⟩

/-- Embeds `_clean_heading_text` (source lines 750-776).  The guard
`len(cleaned) < len(original) * 0.4` is embedded with the exact rational
`2/5`; the `except` branch of the source is unreachable for total inputs. -/
def clean_heading_text (text : String) : String :=
  let original := stripChars text.toList
  let c1 := stripChars (dropFromDoubleDot text.toList)
  let c2 := stripChars (stripTrailingNum c1)
  let c3 := stripChars (collapseWS c2)
  let c4 := uniFix c3
  let cleaned := if (c4.length : ℚ) < (original.length : ℚ) * (2 / 5) then original else c4
  ensure_trailing_space cleaned

/-! ## Lemmas about the Text Cleaner -/

theorem ends_space_step (cleaned : List Char) :
    (ensure_trailing_space cleaned).toList.getLast? = some ' ' := by
  unfold ensure_trailing_space
  split
  · next h => exact h
  · simp [List.getLast?_concat]

theorem clean_ends_space (s : String) :
    (clean_heading_text s).toList.getLast? = some ' ' := by
  unfold clean_heading_text
  exact ends_space_step _

theorem dropWhile_length_le (p : Char → Bool) (l : List Char) :
    (l.dropWhile p).length ≤ l.length := by
  induction l with
  | nil => simp
  | cons a l ih =>
    rw [List.dropWhile_cons]
    split
    · exact le_trans ih (Nat.le_succ _)
    · simp

theorem dropWhile_cons_head_false {p : Char → Bool} {h : Char} {t : List Char}
    (he : (h :: t).dropWhile p = h :: t) : p h = false := by
  by_contra hb
  rw [Bool.not_eq_false] at hb
  rw [List.dropWhile_cons_of_pos hb] at he
  have hlen := congrArg List.length he
  simp at hlen
  have := dropWhile_length_le p t
  omega

theorem stripChars_of_stripped {t : List Char}
    (h1 : t.dropWhile isWS = t) (h2 : t.reverse.dropWhile isWS = t.reverse) :
    stripChars t = t := by
  unfold stripChars
  rw [h1, h2, List.reverse_reverse]

theorem stripChars_append_space {t : List Char}
    (h1 : t.dropWhile isWS = t) (h2 : t.reverse.dropWhile isWS = t.reverse) :
    stripChars (t ++ [' ']) = t := by
  cases t with
  | nil => rfl
  | cons c rest =>
    have hc : isWS c = false := dropWhile_cons_head_false h1
    unfold stripChars
    rw [List.cons_append, List.dropWhile_cons_of_neg (by simp [hc])]
    have hrev : (c :: (rest ++ [' '])).reverse = ' ' :: (c :: rest).reverse := by
      simp
    rw [hrev, List.dropWhile_cons_of_pos (show isWS ' ' = true from rfl), h2,
      List.reverse_reverse]

theorem getLast?_ne_space {t : List Char}
    (h2 : t.reverse.dropWhile isWS = t.reverse) : t.getLast? ≠ some ' ' := by
  cases hrev : t.reverse with
  | nil =>
    have : t = [] := by simpa using congrArg List.reverse hrev
    simp [this]
  | cons x xs =>
    rw [hrev] at h2
    have hx : isWS x = false := dropWhile_cons_head_false h2
    have ht : t = xs.reverse ++ [x] := by
      have := congrArg List.reverse hrev
      simpa using this
    rw [ht, List.getLast?_concat]
    intro hcon
    have : x = ' ' := by simpa using hcon
    subst this
    exact absurd hx (by simp [isWS])

section
attribute [local semireducible] Rat.add Rat.mul Rat.sub Rat.inv

/-- C4 (counterexample): the heading-text cleaner is not idempotent, even
ignoring the guaranteed trailing space.  On `"abcde 1 2"` the first pass
strips only the trailing bare number `2`, producing `"abcde 1 "`, and a
second pass strips the newly exposed trailing number `1`. -/
theorem c4_clean_not_idempotent :
    clean_heading_text (clean_heading_text "abcde 1 2") ≠ clean_heading_text "abcde 1 2" ∧
    strip (clean_heading_text (clean_heading_text "abcde 1 2")) ≠
      strip (clean_heading_text "abcde 1 2") ∧
    clean_heading_text "abcde 1 2" = "abcde 1 " ∧
    clean_heading_text "abcde 1 " = "abcde " := by
  refine ⟨?_, ?_, ?_, ?_⟩ <;> decide

end

/-- C4 (amended): every string the cleaner produces ends in `' '`, and
cleaning is idempotent on those produced strings whose core (the part before
the trailing space) is stable under the cleaning passes: already stripped, no
run of two or more dots, no trailing whitespace-plus-number, whitespace
already collapsed, and none of the mapped typographic characters.  Without
those stability conditions a second pass can strip further (see the
counterexample). -/
theorem c4_clean_idempotent_on_stable :
    (∀ s : String, (clean_heading_text s).toList.getLast? = some ' ') ∧
    ∀ t : List Char, t.dropWhile isWS = t → t.reverse.dropWhile isWS = t.reverse →
      dropFromDoubleDot (t ++ [' ']) = t ++ [' '] → stripTrailingNum t = t →
      collapseWS t = t → uniFix t = t →
      clean_heading_text ⟨t ++ [' ']⟩ = ⟨t ++ [' ']⟩ := by
  refine ⟨clean_ends_space, ?_⟩
  intro t h1 h2 h3 h4 h5 h6
  have htl : (⟨t ++ [' ']⟩ : String).toList = t ++ [' '] := rfl
  simp only [clean_heading_text, htl, h3, h4, h5, h6,
    stripChars_append_space h1 h2, stripChars_of_stripped h1 h2, ite_self]
  unfold ensure_trailing_space
  rw [if_neg (getLast?_ne_space h2)]

/-- Witness for the amended C4 theorem at the concrete stable core
`"Hello World"`. -/
theorem c4_clean_idempotent_on_stable_witness :
    clean_heading_text ⟨"Hello World".toList ++ [' ']⟩ = ⟨"Hello World".toList ++ [' ']⟩ :=
  c4_clean_idempotent_on_stable.2 "Hello World".toList (by decide) (by decide) (by decide)
    (by decide) (by decide) (by decide)

/-! ## A stable keyed insertion sort

Python's `list.sort(key=...)` is a stable sort.  Both page-span sorting
(`page_spans.sort(key=lambda s: (s["y"], s["x"]))`) and heading sorting
(`headings.sort(key=lambda x: x["page"])`) are embedded with the stable
insertion sort below (stable sorts on the same key agree pointwise). -/

def insert_keyed {α κ : Type} [LinearOrder κ] (f : α → κ) (a : α) : List α → List α
  | [] => [a]
  | x :: xs => if f x ≤ f a then x :: insert_keyed f a xs else a :: x :: xs

def sort_keyed {α κ : Type} [LinearOrder κ] (f : α → κ) (l : List α) : List α :=
  l.foldl (fun acc a => insert_keyed f a acc) []

theorem mem_insert_keyed {α κ : Type} [LinearOrder κ] {f : α → κ} {a b : α} {l : List α} :
    b ∈ insert_keyed f a l ↔ b = a ∨ b ∈ l := by
  induction l with
  | nil => simp [insert_keyed]
  | cons x xs ih =>
    unfold insert_keyed
    split
    all_goals simp only [List.mem_cons, ih]
    all_goals tauto

theorem pairwise_insert_keyed {α κ : Type} [LinearOrder κ] {f : α → κ} {a : α} {l : List α}
    (hl : l.Pairwise (fun x y => f x ≤ f y)) :
    (insert_keyed f a l).Pairwise (fun x y => f x ≤ f y) := by
  induction l with
  | nil => simp [insert_keyed]
  | cons x xs ih =>
    rw [List.pairwise_cons] at hl
    unfold insert_keyed
    split
    · next hle =>
      rw [List.pairwise_cons]
      refine ⟨fun b hb => ?_, ih hl.2⟩
      rcases mem_insert_keyed.mp hb with rfl | hb
      · exact hle
      · exact hl.1 b hb
    · next hgt =>
      have hax : f a ≤ f x := le_of_not_le hgt
      rw [List.pairwise_cons]
      refine ⟨fun b hb => ?_, List.pairwise_cons.mpr hl⟩
      rcases List.mem_cons.mp hb with rfl | hb
      · exact hax
      · exact le_trans hax (hl.1 b hb)

theorem perm_insert_keyed {α κ : Type} [LinearOrder κ] (f : α → κ) (a : α) (l : List α) :
    List.Perm (insert_keyed f a l) (a :: l) := by
  induction l with
  | nil => rfl
  | cons x xs ih =>
    unfold insert_keyed
    split
    · exact ((ih.cons x).trans (List.Perm.swap a x xs))
    · rfl

theorem foldl_insert_keyed_pairwise {α κ : Type} [LinearOrder κ] (f : α → κ) :
    ∀ (l acc : List α), acc.Pairwise (fun x y => f x ≤ f y) →
      (l.foldl (fun acc a => insert_keyed f a acc) acc).Pairwise (fun x y => f x ≤ f y) := by
  intro l
  induction l with
  | nil => exact fun acc h => h
  | cons a l ih => exact fun acc h => ih _ (pairwise_insert_keyed h)

theorem foldl_insert_keyed_perm {α κ : Type} [LinearOrder κ] (f : α → κ) :
    ∀ (l acc : List α), List.Perm (l.foldl (fun acc a => insert_keyed f a acc) acc) (acc ++ l) := by
  intro l
  induction l with
  | nil => simp
  | cons a l ih =>
    intro acc
    refine ((ih _).trans ?_)
    refine ((perm_insert_keyed f a acc).append_right l).trans ?_
    exact List.perm_middle.symm.trans (by simp)

theorem sort_keyed_pairwise {α κ : Type} [LinearOrder κ] (f : α → κ) (l : List α) :
    (sort_keyed f l).Pairwise (fun x y => f x ≤ f y) :=
  foldl_insert_keyed_pairwise f l [] (by simp)

theorem sort_keyed_perm {α κ : Type} [LinearOrder κ] (f : α → κ) (l : List α) :
    List.Perm (sort_keyed f l) l := by
  simpa using foldl_insert_keyed_perm f l []

/-! ## Line Merger (`extract_text_with_metadata`, source lines 71-91)

A `Span` is one raw styled fragment (the fields consumed by the merging
loop; the remaining fields of the Python span dict do not influence
grouping). -/

structure Span where
  text : String
  size : ℚ
  x : ℚ
  y : ℚ
  bold : Bool
deriving DecidableEq, Repr

/-- The sort key of `page_spans.sort(key=lambda s: (s["y"], s["x"]))`. -/
def sort_spans (spans : List Span) : List Span :=
  sort_keyed (fun s => toLex (s.y, s.x)) spans

/-- The group-extension test of the merging loop (source line 81):
`y_diff <= y_threshold or (y_diff <= 15 and span["size"] == current_line[-1]["size"])`
with `y_diff = abs(span["y"] - current_line[-1]["y"])`. -/
def span_extends (thr : ℚ) (last s : Span) : Bool :=
  decide (|s.y - last.y| ≤ thr) ||
    (decide (|s.y - last.y| ≤ 15) && decide (s.size = last.size))

/-- The merging loop over the remaining spans.  The open group is
`cur ++ [last]`, with `last` the group's most recent span (the Python
`current_line[-1]`); at the end the open group is closed. -/
def line_groups_aux (thr : ℚ) : List Span → List Span → Span → List (List Span)
  | [], cur, last => [cur ++ [last]]
  | s :: rest, cur, last =>
    if span_extends thr last s then line_groups_aux thr rest (cur ++ [last]) s
    else (cur ++ [last]) :: line_groups_aux thr rest [] s

/-- Groups a page's sorted spans into visual-line groups (source lines
76-89); each group is afterwards merged into one `Line` by
`_merge_line_spans`.  A page with no spans contributes no lines. -/
def line_groups (thr : ℚ) : List Span → List (List Span)
  | [] => []
  | s :: rest => line_groups_aux thr rest [] s

/-! ### Structural lemmas about the merging loop -/

theorem line_groups_aux_cons (thr : ℚ) (s : Span) (rest cur : List Span) (last : Span) :
    line_groups_aux thr (s :: rest) cur last =
      if span_extends thr last s then line_groups_aux thr rest (cur ++ [last]) s
      else (cur ++ [last]) :: line_groups_aux thr rest [] s := rfl

theorem line_groups_aux_join (thr : ℚ) :
    ∀ (l cur : List Span) (last : Span),
      (line_groups_aux thr l cur last).flatten = cur ++ last :: l := by
  intro l
  induction l with
  | nil => intro cur last; simp [line_groups_aux]
  | cons s rest ih =>
    intro cur last
    rw [line_groups_aux_cons]
    split
    · rw [ih]
      simp
    · simp only [List.flatten_cons, ih]
      simp

theorem line_groups_aux_chain (thr : ℚ) :
    ∀ (l cur : List Span) (last : Span),
      (cur ++ [last]).Chain' (fun p q => span_extends thr p q = true) →
      ∀ g ∈ line_groups_aux thr l cur last,
        g.Chain' (fun p q => span_extends thr p q = true) := by
  intro l
  induction l with
  | nil =>
    intro cur last hch g hg
    simp only [line_groups_aux, List.mem_singleton] at hg
    exact hg ▸ hch
  | cons s rest ih =>
    intro cur last hch g hg
    rw [line_groups_aux_cons] at hg
    split at hg
    · next hext =>
      refine ih _ s ?_ g hg
      rw [List.chain'_append]
      exact ⟨hch, List.chain'_singleton s,
        fun x hx y hy => by
          rw [List.getLast?_concat] at hx
          simp at hx hy
          rw [← hx, ← hy]
          exact hext⟩
    · next hext =>
      rcases List.mem_cons.mp hg with rfl | hg
      · exact hch
      · exact ih [] s (List.chain'_singleton s) g hg

theorem line_groups_aux_first (thr : ℚ) :
    ∀ (l cur : List Span) (last : Span),
      ∃ g gs, line_groups_aux thr l cur last = g :: gs ∧ (cur ++ [last]) <+: g := by
  intro l
  induction l with
  | nil =>
    intro cur last
    exact ⟨cur ++ [last], [], rfl, List.prefix_refl _⟩
  | cons s rest ih =>
    intro cur last
    rw [line_groups_aux_cons]
    split
    · obtain ⟨g, gs, heq, hpre⟩ := ih (cur ++ [last]) s
      refine ⟨g, gs, heq, List.IsPrefix.trans ?_ hpre⟩
      exact ⟨[s], by simp⟩
    · exact ⟨cur ++ [last], _, rfl, List.prefix_refl _⟩

theorem line_groups_aux_boundary (thr : ℚ) :
    ∀ (l cur : List Span) (last : Span),
      (line_groups_aux thr l cur last).Chain'
        (fun g₁ g₂ => ∀ p q, g₁.getLast? = some p → g₂.head? = some q →
          span_extends thr p q = false) := by
  intro l
  induction l with
  | nil => intro cur last; simp [line_groups_aux]
  | cons s rest ih =>
    intro cur last
    rw [line_groups_aux_cons]
    split
    · exact ih _ s
    · next hext =>
      rw [List.chain'_cons']
      refine ⟨?_, ih [] s⟩
      intro g₂ hg₂ p q hp hq
      obtain ⟨g, gs, heq, hpre⟩ := line_groups_aux_first thr rest [] s
      rw [heq] at hg₂
      simp at hg₂
      subst hg₂
      rw [List.getLast?_concat] at hp
      obtain ⟨tl, htl⟩ := hpre
      rw [← htl] at hq
      simp at hq
      rw [← Option.some_inj.mp hp, ← hq]
      simpa using hext

theorem line_groups_aux_segment (thr : ℚ) :
    ∀ (seg l₂ cur : List Span) (last : Span),
      (last :: seg).Chain' (fun p q => span_extends thr p q = true) →
      ∃ g gs, line_groups_aux thr (seg ++ l₂) cur last = g :: gs ∧
        (cur ++ last :: seg) <+: g := by
  intro seg
  induction seg with
  | nil =>
    intro l₂ cur last _
    obtain ⟨g, gs, heq, hpre⟩ := line_groups_aux_first thr l₂ cur last
    exact ⟨g, gs, by simpa using heq, by simpa using hpre⟩
  | cons x seg' ih =>
    intro l₂ cur last hch
    rw [List.chain'_cons] at hch
    have hstep : line_groups_aux thr ((x :: seg') ++ l₂) cur last =
        line_groups_aux thr (seg' ++ l₂) (cur ++ [last]) x := by
      rw [List.cons_append, line_groups_aux_cons, if_pos hch.1]
    obtain ⟨g, gs, heq, hpre⟩ := ih l₂ (cur ++ [last]) x hch.2
    refine ⟨g, gs, hstep.trans heq, ?_⟩
    simpa using hpre

theorem line_groups_aux_suffix (thr : ℚ) :
    ∀ (l₁ l₂ cur : List Span) (last a : Span),
      ∃ cur' gsPre, line_groups_aux thr (l₁ ++ a :: l₂) cur last =
        gsPre ++ line_groups_aux thr l₂ cur' a := by
  intro l₁
  induction l₁ with
  | nil =>
    intro l₂ cur last a
    simp only [List.nil_append]
    rw [line_groups_aux_cons]
    by_cases h : span_extends thr last a
    · rw [if_pos h]
      exact ⟨cur ++ [last], [], rfl⟩
    · rw [if_neg h]
      exact ⟨[], [cur ++ [last]], rfl⟩
  | cons x l₁' ih =>
    intro l₂ cur last a
    simp only [List.cons_append]
    rw [line_groups_aux_cons]
    by_cases h : span_extends thr last x
    · rw [if_pos h]
      exact ih l₂ (cur ++ [last]) x a
    · rw [if_neg h]
      obtain ⟨cur', gsPre, heq⟩ := ih l₂ [] x a
      exact ⟨cur', (cur ++ [last]) :: gsPre, by rw [heq]; simp⟩

theorem line_groups_cons (thr : ℚ) (s : Span) (rest : List Span) :
    line_groups thr (s :: rest) = line_groups_aux thr rest [] s := rfl

/-- The page-span sort orders spans by ascending `y` (its key is the
lexicographic pair `(y, x)`). -/
theorem sort_spans_pairwise_y (spans : List Span) :
    (sort_spans spans).Pairwise (fun p q => p.y ≤ q.y) := by
  refine (sort_keyed_pairwise (fun s : Span => toLex (s.y, s.x)) spans).imp ?_
  intro p q hpq
  rcases (Prod.Lex.le_iff _ _).mp hpq with h | h
  · exact le_of_lt h
  · exact le_of_eq h.1

section
attribute [local semireducible] Rat.add Rat.mul Rat.sub Rat.inv

/-- Concrete spans for the C1 counterexample: a chain of three spans of
equal size, 10 y-units apart each. -/
def spanA : Span := ⟨"A", 10, 0, 0, false⟩

def spanB : Span := ⟨"B", 10, 0, 10, false⟩

def spanC : Span := ⟨"C", 10, 0, 20, false⟩

/-- C1 (counterexample): two fragments whose y-distance exceeds 15 CAN end
up in the same merged line, through a chain of intermediate fragments: with
spans at y = 0, 10, 20 (all size 10, already sorted), each consecutive pair
merges by the `y_diff <= 15 and same size` rule, so the single resulting
line contains spans 20 y-units apart.  This falsifies the claim's pairwise
reading of the merging rule (and with it the `(5,15]` iff clause). -/
theorem c1_merge_rule_not_pairwise :
    [spanA, spanB, spanC].Pairwise (fun p q => p.y ≤ q.y) ∧
    |spanC.y - spanA.y| > 15 ∧
    line_groups 5 [spanA, spanB, spanC] = [[spanA, spanB, spanC]] ∧
    ∃ g ∈ line_groups 5 [spanA, spanB, spanC], spanA ∈ g ∧ spanC ∈ g := by
  refine ⟨by decide, by decide, by decide, [spanA, spanB, spanC], by decide, by decide,
    by decide⟩

end

/-- C1 (amended): for sorted page spans, the merging loop is characterised
by its behaviour on consecutive fragments: the groups flatten back to the
span list, inside a group every consecutive pair satisfies the extension
rule (`|Δy| ≤ 5`, or `|Δy| ≤ 15` with exactly equal size), and across a
group boundary the extension rule fails.  Moreover the claim's `|Δy| ≤ 5`
clause does hold for arbitrary (not only consecutive) pairs: any two spans
whose y-distance is at most 5 end up in the same merged line.  The `(5,15]`
iff clause and the `>15` never-merge clause hold only for consecutive
fragments, not pairwise (see the counterexample). -/
theorem c1_line_merger_amended (spans : List Span)
    (hs : spans.Pairwise (fun p q => p.y ≤ q.y)) :
    (line_groups 5 spans).flatten = spans ∧
    (∀ g ∈ line_groups 5 spans, g.Chain' (fun p q => span_extends 5 p q = true)) ∧
    ((line_groups 5 spans).Chain' (fun g₁ g₂ => ∀ p q, g₁.getLast? = some p →
      g₂.head? = some q → span_extends 5 p q = false)) ∧
    ∀ pre (a : Span) mid (b : Span) post, spans = pre ++ a :: (mid ++ b :: post) →
      |b.y - a.y| ≤ 5 → ∃ g ∈ line_groups 5 spans, a ∈ g ∧ b ∈ g := by
  refine ⟨?_, ?_, ?_, ?_⟩
  · cases spans with
    | nil => rfl
    | cons s rest => rw [line_groups_cons, line_groups_aux_join]; rfl
  · cases spans with
    | nil => simp [line_groups]
    | cons s rest =>
      rw [line_groups_cons]
      exact line_groups_aux_chain 5 rest [] s (List.chain'_singleton s)
  · cases spans with
    | nil => simp [line_groups]
    | cons s rest =>
      rw [line_groups_cons]
      exact line_groups_aux_boundary 5 rest [] s
  · intro pre a mid b post hdec habs
    have hseg_infix : (a :: (mid ++ [b])) <:+: spans := by
      rw [hdec, show pre ++ a :: (mid ++ b :: post) =
        pre ++ (a :: (mid ++ [b])) ++ post by simp]
      exact List.infix_append _ _ _
    have hseg_pw : (a :: (mid ++ [b])).Pairwise (fun p q => p.y ≤ q.y) :=
      hs.sublist hseg_infix.sublist
    have hslo : ∀ p ∈ a :: (mid ++ [b]), a.y ≤ p.y := by
      intro p hp
      rcases List.mem_cons.mp hp with rfl | hp
      · exact le_refl _
      · exact (List.pairwise_cons.mp hseg_pw).1 p hp
    have hshi : ∀ p ∈ a :: (mid ++ [b]), p.y ≤ b.y := by
      have hpw' : ((a :: mid) ++ [b]).Pairwise (fun p q => p.y ≤ q.y) := by
        simpa using hseg_pw
      have hcross := (List.pairwise_append.mp hpw').2.2
      intro p hp
      rcases List.mem_cons.mp hp with rfl | hp
      · exact hcross p (by simp) b (by simp)
      · rcases List.mem_append.mp hp with hp | hp
        · exact hcross p (by simp [hp]) b (by simp)
        · simp at hp
          subst hp
          exact le_refl _
    have hab : a.y ≤ b.y := hshi a (by simp)
    have hba5 : b.y - a.y ≤ 5 := by
      rwa [abs_of_nonneg (sub_nonneg.mpr hab)] at habs
    have hchain : (a :: (mid ++ [b])).Chain' (fun p q => span_extends 5 p q = true) := by
      refine List.Pairwise.chain' ?_
      refine (List.Pairwise.and_mem.mp hseg_pw).imp ?_
      rintro p q ⟨hp, hq, hpq⟩
      simp only [span_extends, Bool.or_eq_true, decide_eq_true_eq]
      left
      rw [abs_of_nonneg (sub_nonneg.mpr hpq)]
      have h1 : q.y ≤ b.y := hshi q hq
      have h2 : a.y ≤ p.y := hslo p hp
      linarith
    cases pre with
    | nil =>
      simp only [List.nil_append] at hdec
      subst hdec
      rw [line_groups_cons]
      obtain ⟨g, gs, heq, hpre⟩ :=
        line_groups_aux_segment 5 (mid ++ [b]) post [] a (by exact hchain)
      rw [show (mid ++ [b]) ++ post = mid ++ b :: post by simp] at heq
      refine ⟨g, by rw [heq]; exact List.mem_cons_self _ _, ?_, ?_⟩
      · exact hpre.subset (by simp)
      · exact hpre.subset (by simp)
    | cons p₀ pre' =>
      simp only [List.cons_append] at hdec
      subst hdec
      rw [line_groups_cons]
      obtain ⟨cur', gsPre, heq⟩ :=
        line_groups_aux_suffix 5 pre' (mid ++ b :: post) [] p₀ a
      obtain ⟨g, gs, heq2, hpre⟩ :=
        line_groups_aux_segment 5 (mid ++ [b]) post cur' a (by exact hchain)
      rw [show (mid ++ [b]) ++ post = mid ++ b :: post by simp] at heq2
      rw [heq, heq2]
      refine ⟨g, by simp, ?_, ?_⟩
      · exact hpre.subset (by simp)
      · exact hpre.subset (by simp)

/-- Witness for the amended C1 theorem: a concrete sorted two-span page in
which the spans are 8 y-units apart with equal size, so they form one line.
All four conjuncts of the amended theorem are instantiated. -/
theorem c1_line_merger_amended_witness :
    ([⟨"w1", 12, 0, 0, true⟩, ⟨"w2", 12, 0, 8, false⟩] : List Span).Pairwise
      (fun p q => p.y ≤ q.y) ∧
    ((line_groups 5 [⟨"w1", 12, 0, 0, true⟩, ⟨"w2", 12, 0, 8, false⟩]).flatten =
      [⟨"w1", 12, 0, 0, true⟩, ⟨"w2", 12, 0, 8, false⟩]) := by
  have hpw : ([⟨"w1", 12, 0, 0, true⟩, ⟨"w2", 12, 0, 8, false⟩] : List Span).Pairwise
      (fun p q => p.y ≤ q.y) := by decide
  exact ⟨hpw, (c1_line_merger_amended _ hpw).1⟩

/-! ## Lines and the Font Threshold Calculator
(`_calculate_font_thresholds`, source lines 618-640)

A `Line` carries the merged-line fields consumed by the analyzer, the title
extractors and the heading classifiers.  The source stores
`char_count = len(merged_text)`; it is kept as a field because downstream
code reads it through `line.get("char_count", ...)`. -/

structure Line where
  text : String
  size : ℚ
  font : String
  bold : Bool
  italic : Bool
  page : ℕ
  relative_y : ℚ
  char_count : ℕ
  script_type : String
deriving DecidableEq, Repr

/-- Keys of a Python `Counter`/dict in first-insertion order. -/
def dedup_first {α : Type} [DecidableEq α] (l : List α) : List α :=
  l.foldl (fun acc a => if a ∈ acc then acc else acc ++ [a]) []

/-- Embeds `collections.Counter(xs)`: each distinct element with its count,
in first-occurrence order. -/
def counter {α : Type} [DecidableEq α] (l : List α) : List (α × ℕ) :=
  (dedup_first l).map (fun k => (k, l.count k))

/-- Embeds `Counter.most_common()`: the counter items sorted by descending
count; CPython uses a stable sort, so ties keep first-occurrence order,
which the stable keyed insertion sort on the negated count reproduces. -/
def most_common {α : Type} [DecidableEq α] (l : List α) : List (α × ℕ) :=
  sort_keyed (fun p => -(p.2 : ℤ)) (counter l)

/-- Embeds `font_sizes = [line["size"] for line in lines if line["size"] > 0]`. -/
def font_sizes (lines : List Line) : List ℚ :=
  (lines.map (·.size)).filter (fun s => decide (0 < s))

/-- Embeds `significant_fonts = [size for size, count in font_freq.most_common() if count >= 3]`. -/
def significant_fonts (lines : List Line) : List ℚ :=
  ((most_common (font_sizes lines)).filter (fun p => decide (3 ≤ p.2))).map (·.1)

structure FontThresholds where
  h1 : ℚ
  h2 : ℚ
  h3 : ℚ
  h4 : ℚ
deriving DecidableEq, Repr

/-- Embeds `_calculate_font_thresholds` (source lines 618-640).  `none`
models the `{}` returned for an empty size list.  The float ratios `1.3`,
`1.15`, `1.05` of the fallback path are embedded as the exact rationals. -/
def calculate_font_thresholds (lines : List Line) : Option FontThresholds :=
  let fs := font_sizes lines
  if fs = [] then none
  else
    let sig := significant_fonts lines
    if 3 ≤ sig.length then
      some ⟨sig.getD 0 0, sig.getD 1 0, sig.getD 2 0,
        if 3 < sig.length then sig.getD 3 0 else sig.getD 2 0⟩
    else
      let avg := fs.sum / (fs.length : ℚ)
      some ⟨avg * (13 / 10), avg * (23 / 20), avg * (21 / 20), avg⟩

/-- Embeds `font_analysis.get("H1", 0)` on the threshold dict. -/
def getH1 : Option FontThresholds → ℚ
  | none => 0
  | some t => t.h1

/-- Embeds `font_analysis.get("H2", 0)`. -/
def getH2 : Option FontThresholds → ℚ
  | none => 0
  | some t => t.h2

/-- Embeds `font_analysis.get("H3", 12)`-style reads with explicit default. -/
def getH3D (d : ℚ) : Option FontThresholds → ℚ
  | none => d
  | some t => t.h3

/-- Embeds `font_analysis.get("H4", 0)`. -/
def getH4 : Option FontThresholds → ℚ
  | none => 0
  | some t => t.h4

/-- A line whose only relevant feature is its size, for threshold tests. -/
def size_line (s : ℚ) : Line := ⟨"x", s, "f", false, false, 1, 0, 1, "latin"⟩

/-- The C2 counterexample document: size 10 on five lines, size 20 on four,
size 30 on three, so all three sizes are significant and frequency ranks
them in increasing size order. -/
def c2_lines : List Line :=
  List.replicate 5 (size_line 10) ++ List.replicate 4 (size_line 20) ++
    List.replicate 3 (size_line 30)

section
attribute [local semireducible] Rat.add Rat.mul Rat.sub Rat.inv

/-- C2 (counterexample): on the frequency-based path the thresholds are
ordered by frequency rank, not by size, so `H1 ≥ H2` fails: the most common
size (10) becomes H1 while the second most common (20) becomes H2. -/
theorem c2_thresholds_not_monotone :
    font_sizes c2_lines ≠ [] ∧
    3 ≤ (significant_fonts c2_lines).length ∧
    getH1 (calculate_font_thresholds c2_lines) = 10 ∧
    getH2 (calculate_font_thresholds c2_lines) = 20 ∧
    ¬ getH1 (calculate_font_thresholds c2_lines) ≥ getH2 (calculate_font_thresholds c2_lines) := by
  refine ⟨by decide, by decide, by decide, by decide, by decide⟩

end

/-- C2 (amended): on the mean-ratio fallback path (fewer than three sizes
occurring three or more times) the thresholds are monotone,
`H1 ≥ H2 ≥ H3 ≥ H4`; on the frequency-based path monotonicity can fail
(see the counterexample). -/
theorem c2_fallback_thresholds_monotone (lines : List Line)
    (hne : font_sizes lines ≠ [])
    (hfew : (significant_fonts lines).length < 3) :
    getH1 (calculate_font_thresholds lines) ≥ getH2 (calculate_font_thresholds lines) ∧
    getH2 (calculate_font_thresholds lines) ≥ getH3D 12 (calculate_font_thresholds lines) ∧
    getH3D 12 (calculate_font_thresholds lines) ≥ getH4 (calculate_font_thresholds lines) := by
  have havg : 0 ≤ (font_sizes lines).sum / ((font_sizes lines).length : ℚ) := by
    apply div_nonneg
    · apply List.sum_nonneg
      intro x hx
      exact le_of_lt (of_decide_eq_true (List.mem_filter.mp hx).2)
    · positivity
  unfold calculate_font_thresholds
  rw [if_neg hne, if_neg (by omega)]
  simp only [getH1, getH2, getH3D, getH4]
  refine ⟨?_, ?_, ?_⟩
  · exact mul_le_mul_of_nonneg_left (by norm_num) havg
  · exact mul_le_mul_of_nonneg_left (by norm_num) havg
  · calc (font_sizes lines).sum / ((font_sizes lines).length : ℚ)
        = (font_sizes lines).sum / ((font_sizes lines).length : ℚ) * 1 := by ring
      _ ≤ (font_sizes lines).sum / ((font_sizes lines).length : ℚ) * (21 / 20) :=
        mul_le_mul_of_nonneg_left (by norm_num) havg

/-- Two lines with sizes 10 and 12, for the C2 witness (counts below 3, so
the fallback path is taken). -/
def c2w_lines : List Line := [size_line 10, size_line 12]

/-- Witness for the amended C2 theorem on a concrete two-line document. -/
theorem c2_fallback_thresholds_monotone_witness :
    (font_sizes c2w_lines ≠ [] ∧ (significant_fonts c2w_lines).length < 3) ∧
    (getH1 (calculate_font_thresholds c2w_lines) ≥ getH2 (calculate_font_thresholds c2w_lines) ∧
     getH2 (calculate_font_thresholds c2w_lines) ≥ getH3D 12 (calculate_font_thresholds c2w_lines) ∧
     getH3D 12 (calculate_font_thresholds c2w_lines) ≥ getH4 (calculate_font_thresholds c2w_lines)) :=
  ⟨⟨by decide, by decide⟩,
    c2_fallback_thresholds_monotone c2w_lines (by decide) (by decide)⟩

/-! ## Hand-written matchers for the source's fixed regular expressions -/

/-- Generic `re.search`: try the anchored matcher at every suffix. -/
def search_any (m : List Char → Bool) : List Char → Bool
  | [] => m []
  | c :: rest => m (c :: rest) || search_any m rest

/-- Embeds `re.match(r'^\d+\.\s+[A-Z]', text)`: one or more digits, a dot,
one or more whitespace characters, an ASCII capital. -/
def match_num_dot_upper (l : List Char) : Bool :=
  let rest := l.dropWhile isDig
  if rest.length = l.length then false
  else
    match rest with
    | '.' :: r =>
      let r2 := r.dropWhile isWS
      if r2.length = r.length then false
      else
        match r2 with
        | c :: _ => c.isUpper
        | [] => false
    | _ => false

/-- Embeds `re.match(r'^\d+\.\d+\s+[A-Z]', text)`. -/
def match_num_dot_num_upper (l : List Char) : Bool :=
  let rest := l.dropWhile isDig
  if rest.length = l.length then false
  else
    match rest with
    | '.' :: r =>
      let r2 := r.dropWhile isDig
      if r2.length = r.length then false
      else
        let r3 := r2.dropWhile isWS
        if r3.length = r2.length then false
        else
          match r3 with
          | c :: _ => c.isUpper
          | [] => false
    | _ => false

/-- Embeds `re.match(r'^\d+[\.\)\:]', text)` (`_is_numbered_pattern`,
source lines 715-716). -/
def is_numbered_pattern (text : String) : Bool :=
  let l := text.toList
  let rest := l.dropWhile isDig
  if rest.length = l.length then false
  else
    match rest with
    | c :: _ => c == '.' || c == ')' || c == ':'
    | [] => false

/-- Matches a sequence of literal words separated by `\s+` runs, anchored at
both ends (the shape of `^(revision\s+history|...)$`). -/
def match_words_ws : List (List Char) → List Char → Bool
  | [], s => s.isEmpty
  | [w], s => s == w
  | w :: ws, s =>
    prefOf w s &&
      (let r := s.drop w.length
       let r2 := r.dropWhile isWS
       decide (r2.length ≠ r.length) && match_words_ws ws r2)

/-- Embeds `re.search(r'^(revision\s+history|table\s+of\s+contents|acknowledgements)$', t)`. -/
def academic_h1_phrase (t : List Char) : Bool :=
  match_words_ws ["revision".toList, "history".toList] t ||
  match_words_ws ["table".toList, "of".toList, "contents".toList] t ||
  match_words_ws ["acknowledgements".toList] t

/-- Embeds Python `str.rstrip(':')`. -/
def rstrip_colon (l : List Char) : List Char :=
  (l.reverse.dropWhile (· == ':')).reverse

/-- Embeds `re.search(r'^appendix\s+[a-z]', t)` on a lowered string. -/
def appendix_re (l : List Char) : Bool :=
  prefOf "appendix".toList l &&
    (let r := l.drop 8
     let r2 := r.dropWhile isWS
     decide (r2.length ≠ r.length) &&
       match r2 with
       | c :: _ => c.isLower
       | [] => false)

/-- Embeds `text.endswith(':')`. -/
def ends_colon (text : String) : Bool := text.toList.getLast? == some ':'

/-- Embeds Python `str.isupper()` on the ASCII-cased fragment texts:
at least one alphabetic character and no lowercase one. -/
def py_isupper (l : List Char) : Bool :=
  l.any (fun c => c.isAlpha) && l.all (fun c => !c.isAlpha || c.isUpper)

/-- Embeds `_is_all_uppercase` (source lines 726-730). -/
def is_all_uppercase (text : String) : Bool :=
  let alpha := text.toList.filter (fun c => c.isAlpha)
  !alpha.isEmpty && alpha.all (fun c => c.isUpper)

/-- Matcher for `version\s*[\d\.]+` at the current position. -/
def version_at (l : List Char) : Bool :=
  prefOf "version".toList l &&
    (match (l.drop 7).dropWhile isWS with
     | c :: _ => isDig c || c == '.'
     | [] => false)

/-- Matcher for `\d{4}` at the current position. -/
def four_digits_at (l : List Char) : Bool :=
  match l with
  | a :: b :: c :: d :: _ => isDig a && isDig b && isDig c && isDig d
  | _ => false

/-- Matcher for `page\s+\d+` at the current position. -/
def page_num_at (l : List Char) : Bool :=
  prefOf "page".toList l &&
    (let r := l.drop 4
     let r2 := r.dropWhile isWS
     decide (r2.length ≠ r.length) &&
       match r2 with
       | c :: _ => isDig c
       | [] => false)

/-- Matcher for `date\s*:` / `author\s*:` given the literal word. -/
def word_colon_at (w : List Char) (l : List Char) : Bool :=
  prefOf w l &&
    (match (l.drop w.length).dropWhile isWS with
     | c :: _ => c == ':'
     | [] => false)

/-- Embeds `_is_universal_metadata` (source lines 718-724): the fixed
boilerplate patterns searched in the lowered, stripped text. -/
def is_universal_metadata (text : String) : Bool :=
  let tl := stripChars (lower text).toList
  search_any version_at tl || subOf "draft".toList tl ||
    subOf "confidential".toList tl || subOf "copyright".toList tl ||
    subOf "©".toList tl || search_any four_digits_at tl ||
    search_any page_num_at tl || search_any (word_colon_at "date".toList) tl ||
    search_any (word_colon_at "author".toList) tl

/-! ## Heading classifiers (source lines 415-497 and 642-680) -/

/-- Embeds `_classify_general_main_heading` (source lines 672-680). -/
def classify_general_main_heading (text : String) (line : Line)
    (fa : Option FontThresholds) : Option String :=
  if match_num_dot_upper text.toList then some "H1"
  else if match_num_dot_num_upper text.toList then some "H2"
  else if line.bold && decide (line.size ≥ getH2 fa) && decide (text.length ≤ 80) then
    some "H2"
  else none

/-- Embeds `_classify_academic_main_heading` (source lines 642-654). -/
def classify_academic_main_heading (text : String) (line : Line)
    (fa : Option FontThresholds) : Option String :=
  if academic_h1_phrase (lower text).toList then some "H1"
  else if match_num_dot_upper text.toList then some "H1"
  else if match_num_dot_num_upper text.toList then some "H2"
  else if decide (line.size ≥ getH1 fa) && line.bold && decide (text.length ≤ 80) then
    some "H1"
  else if decide (line.size ≥ getH2 fa) && line.bold && decide (text.length ≤ 60) then
    some "H2"
  else none

/-- Embeds `_classify_rfp_main_heading` (source lines 656-670). -/
def classify_rfp_main_heading (text : String) (line : Line)
    (fa : Option FontThresholds) : Option String :=
  if ["summary".toList, "background".toList, "timeline".toList,
      "milestones".toList].any (fun w => rstrip_colon (lower text).toList == w) then
    some "H2"
  else if appendix_re (lower text).toList then some "H2"
  else if match_num_dot_upper text.toList then some "H3"
  else if ends_colon text && decide (8 ≤ text.length) && decide (text.length ≤ 50) &&
      line.bold then
    some "H3"
  else if decide (line.size ≥ getH1 fa) && decide (text.length ≤ 100) then some "H1"
  else if decide (line.size ≥ getH2 fa) && line.bold then some "H2"
  else none

/-- The fixed H1 phrase table of `_classify_file3_heading`. -/
def file3_h1_patterns : List String :=
  ["ontario\x27s digital library",
   "ontario’s digital library",
   "a critical component for implementing ontario\x27s road map to prosperity strategy",
   "a critical component for implementing ontario’s road map to prosperity strategy"]

/-- The fixed H2 phrase table of `_classify_file3_heading`. -/
def file3_h2_patterns : List String :=
  ["summary", "background", "the business plan to be developed",
   "approach and specific proposal requirements",
   "evaluation and awarding of contract",
   "appendix a: odl envisioned phases & funding",
   "appendix a: odl envisioned phases &amp; funding",
   "appendix b: odl steering committee terms of reference",
   "appendix c: odl\x27s envisioned electronic resources",
   "appendix c: odl’s envisioned electronic resources"]

/-- The fixed H3 phrase table of `_classify_file3_heading`. -/
def file3_h3_patterns : List String :=
  ["timeline:", "equitable access for all ontarians:",
   "shared decision-making and accountability:", "shared governance structure:",
   "shared funding:", "local points of entry:", "access:",
   "guidance and advice:", "training:", "provincial purchasing & licensing:",
   "provincial purchasing &amp; licensing:", "technological support:",
   "what could the odl really mean?", "milestones", "phase i: business planning",
   "phase ii: implementing and transitioning",
   "phase iii: operating and growing the odl", "1. preamble",
   "2. terms of reference", "3. membership",
   "4. appointment criteria and process", "5. term", "6. chair", "7. meetings",
   "8. lines of accountability and communication",
   "9. financial and administrative policies"]

/-- The fixed H4 phrase table of `_classify_file3_heading`. -/
def file3_h4_patterns : List String :=
  ["for each ontario citizen it could mean:",
   "for each ontario student it could mean:",
   "for each ontario library it could mean:",
   "for each ontario government it could mean:"]

/-- Embeds `_classify_file3_heading` (source lines 415-497). -/
def classify_file3_heading (text : String) (line : Line)
    (fa : Option FontThresholds) : Option String :=
  let tl : String := ⟨stripChars (lower text).toList⟩
  if file3_h1_patterns.any (fun p => containsStr tl p) then some "H1"
  else if file3_h2_patterns.any (fun p => containsStr tl p) then some "H2"
  else if file3_h3_patterns.any (fun p => containsStr tl p) then some "H3"
  else if file3_h4_patterns.any (fun p => containsStr tl p) then some "H4"
  else if ends_colon text && decide (5 ≤ text.length) && decide (text.length ≤ 60) &&
      (line.bold || decide (line.size ≥ getH3D 12 fa)) then
    some "H3"
  else if match_num_dot_upper text.toList && decide (10 ≤ line.page) then some "H3"
  else none

/-- The condition of `_extract_invitation_headings` (source lines 507-508). -/
def invitation_cond (text : String) : Bool :=
  (lower text == "pathway options" || lower text == "hope to see you there") ||
    (py_isupper text.toList && decide (10 ≤ text.length) && decide (text.length ≤ 50))

/-- The condition of `_extract_pathway_headings` (source lines 528-532). -/
def pathway_cond (text : String) : Bool :=
  ["pathway options", "regular pathway", "distinction pathway"].any
    (fun s => containsStr (lower text) s)

/-! ## Heading extraction loops (source lines 390-616) -/

structure Heading where
  level : String
  text : String
  page : ℕ
deriving DecidableEq, Repr

/-- The shared extraction loop of the six genre extractors: walk the lines,
skip a line whose stripped text was already seen or is shorter than
`minLen`, classify, and on success emit a heading (cleaned text, zero-based
page) and remember the pre-clean text.  The pre-clean text is kept in the
first component of each emitted pair (it is the loop's `text` variable and
the key added to `seen`); the source's headings are the second components.
For the invitation/pathway loops the source tests the genre condition
before the seen-set, which yields the same output list. -/
def collect_headings (minLen : ℕ) (classify : String → Line → Option String) :
    List Line → List String → List (String × Heading)
  | [], _ => []
  | l :: rest, seen =>
    let text := strip l.text
    if text ∈ seen ∨ text.length < minLen then
      collect_headings minLen classify rest seen
    else
      match classify text l with
      | some lvl =>
        (text, ⟨lvl, clean_heading_text text, l.page - 1⟩) ::
          collect_headings minLen classify rest (text :: seen)
      | none => collect_headings minLen classify rest seen

/-- The sort key of `headings.sort(key=lambda x: x["page"])`. -/
def pageKey (p : String × Heading) : ℕ := p.2.page

def general_heading_pairs (lines : List Line) : List (String × Heading) :=
  collect_headings 5
    (fun t l => classify_general_main_heading t l (calculate_font_thresholds lines)) lines []

/-- Embeds `_extract_general_main_headings` (source lines 593-616). -/
def extract_general_main_headings (lines : List Line) : List Heading :=
  ((sort_keyed pageKey (general_heading_pairs lines)).map Prod.snd).take 25

def academic_heading_pairs (lines : List Line) : List (String × Heading) :=
  collect_headings 5
    (fun t l => classify_academic_main_heading t l (calculate_font_thresholds lines)) lines []

/-- Embeds `_extract_academic_main_headings` (source lines 543-566). -/
def extract_academic_main_headings (lines : List Line) : List Heading :=
  ((sort_keyed pageKey (academic_heading_pairs lines)).map Prod.snd).take 18

def rfp_heading_pairs (lines : List Line) : List (String × Heading) :=
  collect_headings 5
    (fun t l => classify_rfp_main_heading t l (calculate_font_thresholds lines)) lines []

/-- Embeds `_extract_rfp_main_headings` (source lines 568-591). -/
def extract_rfp_main_headings (lines : List Line) : List Heading :=
  ((sort_keyed pageKey (rfp_heading_pairs lines)).map Prod.snd).take 35

def file3_heading_pairs (lines : List Line) : List (String × Heading) :=
  collect_headings 3
    (fun t l => classify_file3_heading t l (calculate_font_thresholds lines)) lines []

/-- Embeds `_extract_file3_specific_headings` (source lines 390-413), which
sorts but does not cap. -/
def extract_file3_specific_headings (lines : List Line) : List Heading :=
  (sort_keyed pageKey (file3_heading_pairs lines)).map Prod.snd

def invitation_heading_pairs (lines : List Line) : List (String × Heading) :=
  collect_headings 0 (fun t _ => if invitation_cond t then some "H1" else none) lines []

/-- Embeds `_extract_invitation_headings` (source lines 499-518): no sort,
capped at 2. -/
def extract_invitation_headings (lines : List Line) : List Heading :=
  ((invitation_heading_pairs lines).map Prod.snd).take 2

def pathway_heading_pairs (lines : List Line) : List (String × Heading) :=
  collect_headings 0 (fun t _ => if pathway_cond t then some "H1" else none) lines []

/-- Embeds `_extract_pathway_headings` (source lines 520-541): no sort, no cap. -/
def extract_pathway_headings (lines : List Line) : List Heading :=
  (pathway_heading_pairs lines).map Prod.snd

/-! ### Invariants of the extraction loop and the page sort -/

theorem collect_headings_cons (minLen : ℕ) (classify : String → Line → Option String)
    (l : Line) (rest : List Line) (seen : List String) :
    collect_headings minLen classify (l :: rest) seen =
      if strip l.text ∈ seen ∨ (strip l.text).length < minLen then
        collect_headings minLen classify rest seen
      else
        match classify (strip l.text) l with
        | some lvl =>
          (strip l.text, ⟨lvl, clean_heading_text (strip l.text), l.page - 1⟩) ::
            collect_headings minLen classify rest (strip l.text :: seen)
        | none => collect_headings minLen classify rest seen := rfl

theorem collect_headings_nodup (minLen : ℕ) (classify : String → Line → Option String) :
    ∀ (lines : List Line) (seen : List String),
      (collect_headings minLen classify lines seen).Pairwise (fun a b => a.1 ≠ b.1) ∧
      ∀ p ∈ collect_headings minLen classify lines seen, p.1 ∉ seen := by
  intro lines
  induction lines with
  | nil => intro seen; exact ⟨List.Pairwise.nil, by simp [collect_headings]⟩
  | cons l rest ih =>
    intro seen
    rw [collect_headings_cons]
    split
    · exact ih seen
    · next hskip =>
      have htext : strip l.text ∉ seen := fun hmem => hskip (Or.inl hmem)
      cases hcl : classify (strip l.text) l with
      | none => exact ih seen
      | some lvl =>
        constructor
        · rw [List.pairwise_cons]
          refine ⟨fun q hq => ?_, (ih (strip l.text :: seen)).1⟩
          have := (ih (strip l.text :: seen)).2 q hq
          simp only [List.mem_cons, not_or] at this
          exact fun h => this.1 h.symm
        · intro p hp
          rcases List.mem_cons.mp hp with rfl | hp
          · exact htext
          · have := (ih (strip l.text :: seen)).2 p hp
            simp only [List.mem_cons, not_or] at this
            exact this.2

theorem collect_headings_pages_sublist (minLen : ℕ)
    (classify : String → Line → Option String) :
    ∀ (lines : List Line) (seen : List String),
      List.Sublist ((collect_headings minLen classify lines seen).map pageKey)
        (lines.map (fun l => l.page - 1)) := by
  intro lines
  induction lines with
  | nil => intro seen; simp [collect_headings]
  | cons l rest ih =>
    intro seen
    rw [collect_headings_cons]
    split
    · exact (ih seen).cons _
    · cases hcl : classify (strip l.text) l with
      | none => exact (ih seen).cons _
      | some lvl =>
        simp only [List.map_cons, pageKey]
        exact (ih (strip l.text :: seen)).cons₂ (l.page - 1)

theorem insert_keyed_filter_key {α κ : Type} [LinearOrder κ] (f : α → κ) (k : κ) (a : α) :
    ∀ (l : List α), l.Pairwise (fun x y => f x ≤ f y) →
      (insert_keyed f a l).filter (fun x => decide (f x = k)) =
        if f a = k then l.filter (fun x => decide (f x = k)) ++ [a]
        else l.filter (fun x => decide (f x = k)) := by
  intro l
  induction l with
  | nil =>
    intro _
    by_cases h : f a = k <;> simp [insert_keyed, h]
  | cons x xs ih =>
    intro hp
    rw [List.pairwise_cons] at hp
    unfold insert_keyed
    split
    · next hle =>
      by_cases hak : f a = k <;> by_cases hxk : f x = k <;>
        simp [List.filter_cons, hak, hxk, ih hp.2]
    · next hgt =>
      have hax : f a < f x := not_le.mp hgt
      by_cases hak : f a = k
      · have hemp : (x :: xs).filter (fun b => decide (f b = k)) = [] := by
          rw [List.filter_eq_nil_iff]
          intro b hb
          rcases List.mem_cons.mp hb with rfl | hb
          · simp only [decide_eq_true_eq]
            exact fun hc => absurd (hak ▸ hc ▸ hax) (lt_irrefl _)
          · simp only [decide_eq_true_eq]
            intro hc
            exact absurd (hak ▸ hc ▸ lt_of_lt_of_le hax (hp.1 b hb)) (lt_irrefl _)
        simp [List.filter_cons, hak, hemp]
      · simp only [List.filter_cons]
        simp [hak]

theorem sort_keyed_filter_key {α κ : Type} [LinearOrder κ] (f : α → κ) (k : κ) :
    ∀ (l acc : List α), acc.Pairwise (fun x y => f x ≤ f y) →
      ((l.foldl (fun acc a => insert_keyed f a acc) acc).filter
          (fun x => decide (f x = k))) =
        acc.filter (fun x => decide (f x = k)) ++ l.filter (fun x => decide (f x = k)) := by
  intro l
  induction l with
  | nil => intro acc _; simp
  | cons a l ih =>
    intro acc hacc
    have h1 := ih (insert_keyed f a acc) (pairwise_insert_keyed hacc)
    rw [List.foldl_cons, h1, insert_keyed_filter_key f k a acc hacc]
    by_cases h : f a = k <;> simp [List.filter_cons, h]

/-- Stability of the embedded page sort: within each page, the sorted list
keeps the insertion order (the filter by any fixed key is unchanged). -/
theorem sort_keyed_stable {α κ : Type} [LinearOrder κ] (f : α → κ) (k : κ) (l : List α) :
    (sort_keyed f l).filter (fun x => decide (f x = k)) =
      l.filter (fun x => decide (f x = k)) := by
  have := sort_keyed_filter_key f k l [] (by simp)
  simpa [sort_keyed] using this

theorem sorted_take_pairs (pairs : List (String × Heading)) (n : ℕ) :
    (((sort_keyed pageKey pairs).map Prod.snd).take n).Pairwise
      (fun h₁ h₂ => h₁.page ≤ h₂.page) := by
  have hp := sort_keyed_pairwise pageKey pairs
  have hm : ((sort_keyed pageKey pairs).map Prod.snd).Pairwise
      (fun h₁ h₂ => h₁.page ≤ h₂.page) := List.pairwise_map.mpr hp
  exact hm.sublist (List.take_sublist _ _)

theorem nodup_fst_take_sorted (pairs : List (String × Heading))
    (hnd : pairs.Pairwise (fun a b => a.1 ≠ b.1)) (n : ℕ) :
    ((sort_keyed pageKey pairs).take n).Pairwise (fun a b => a.1 ≠ b.1) := by
  have hsorted : (sort_keyed pageKey pairs).Pairwise (fun a b => a.1 ≠ b.1) :=
    ((sort_keyed_perm pageKey pairs).pairwise_iff (fun h h2 => h h2.symm)).mpr hnd
  exact hsorted.sublist (List.take_sublist _ _)

theorem pairs_pages_sorted (minLen : ℕ) (classify : String → Line → Option String)
    (lines : List Line) (hord : lines.Pairwise (fun l₁ l₂ => l₁.page ≤ l₂.page)) :
    (collect_headings minLen classify lines []).Pairwise
      (fun a b => pageKey a ≤ pageKey b) := by
  have hsub := collect_headings_pages_sublist minLen classify lines []
  have hlp : (lines.map (fun l => l.page - 1)).Pairwise (· ≤ ·) :=
    List.pairwise_map.mpr (hord.imp (fun h => Nat.sub_le_sub_right h 1))
  exact List.pairwise_map.mp (hlp.sublist hsub)

/-- C3: for every page-ordered document and every genre's heading extractor,
the output is sorted by ascending zero-based page (stably: the embedded page
sort leaves the within-page insertion order unchanged, first conjunct), and
the emitted entries come from pairwise-distinct pre-clean line texts (the
`seen`-set keys kept as the first components of the collected pairs).  For
the genres that call `headings.sort` the sort is explicit; the invitation
and pathway extractors emit in line order, which is page-ordered for a real
document, the stated hypothesis. -/
theorem c3_headings_sorted_and_deduped (lines : List Line)
    (hord : lines.Pairwise (fun l₁ l₂ => l₁.page ≤ l₂.page)) :
    (∀ (l : List (String × Heading)) (p : ℕ),
      (sort_keyed pageKey l).filter (fun x => decide (pageKey x = p)) =
        l.filter (fun x => decide (pageKey x = p))) ∧
    ((extract_general_main_headings lines).Pairwise (fun h₁ h₂ => h₁.page ≤ h₂.page) ∧
     ((sort_keyed pageKey (general_heading_pairs lines)).take 25).Pairwise
       (fun a b => a.1 ≠ b.1) ∧
     extract_general_main_headings lines =
       ((sort_keyed pageKey (general_heading_pairs lines)).take 25).map Prod.snd) ∧
    ((extract_academic_main_headings lines).Pairwise (fun h₁ h₂ => h₁.page ≤ h₂.page) ∧
     ((sort_keyed pageKey (academic_heading_pairs lines)).take 18).Pairwise
       (fun a b => a.1 ≠ b.1) ∧
     extract_academic_main_headings lines =
       ((sort_keyed pageKey (academic_heading_pairs lines)).take 18).map Prod.snd) ∧
    ((extract_rfp_main_headings lines).Pairwise (fun h₁ h₂ => h₁.page ≤ h₂.page) ∧
     ((sort_keyed pageKey (rfp_heading_pairs lines)).take 35).Pairwise
       (fun a b => a.1 ≠ b.1) ∧
     extract_rfp_main_headings lines =
       ((sort_keyed pageKey (rfp_heading_pairs lines)).take 35).map Prod.snd) ∧
    ((extract_file3_specific_headings lines).Pairwise (fun h₁ h₂ => h₁.page ≤ h₂.page) ∧
     (sort_keyed pageKey (file3_heading_pairs lines)).Pairwise (fun a b => a.1 ≠ b.1) ∧
     extract_file3_specific_headings lines =
       (sort_keyed pageKey (file3_heading_pairs lines)).map Prod.snd) ∧
    ((extract_invitation_headings lines).Pairwise (fun h₁ h₂ => h₁.page ≤ h₂.page) ∧
     ((invitation_heading_pairs lines).take 2).Pairwise (fun a b => a.1 ≠ b.1) ∧
     extract_invitation_headings lines =
       ((invitation_heading_pairs lines).take 2).map Prod.snd) ∧
    ((extract_pathway_headings lines).Pairwise (fun h₁ h₂ => h₁.page ≤ h₂.page) ∧
     (pathway_heading_pairs lines).Pairwise (fun a b => a.1 ≠ b.1) ∧
     extract_pathway_headings lines = (pathway_heading_pairs lines).map Prod.snd) := by
  refine ⟨fun l p => sort_keyed_stable pageKey p l, ?_, ?_, ?_, ?_, ?_, ?_⟩
  · exact ⟨sorted_take_pairs _ 25,
      nodup_fst_take_sorted _ (collect_headings_nodup _ _ lines []).1 25,
      (List.map_take _ _ _).symm⟩
  · exact ⟨sorted_take_pairs _ 18,
      nodup_fst_take_sorted _ (collect_headings_nodup _ _ lines []).1 18,
      (List.map_take _ _ _).symm⟩
  · exact ⟨sorted_take_pairs _ 35,
      nodup_fst_take_sorted _ (collect_headings_nodup _ _ lines []).1 35,
      (List.map_take _ _ _).symm⟩
  · refine ⟨?_, ?_, rfl⟩
    · exact List.pairwise_map.mpr (sort_keyed_pairwise pageKey _)
    · exact ((sort_keyed_perm pageKey _).pairwise_iff (fun h h2 => h h2.symm)).mpr
        (collect_headings_nodup _ _ lines []).1
  · refine ⟨?_, ?_, (List.map_take _ _ _).symm⟩
    · have hp := pairs_pages_sorted 0
        (fun t _ => if invitation_cond t then some "H1" else none) lines hord
      have hm : ((invitation_heading_pairs lines).map Prod.snd).Pairwise
          (fun h₁ h₂ => h₁.page ≤ h₂.page) := List.pairwise_map.mpr hp
      exact hm.sublist (List.take_sublist _ _)
    · exact ((collect_headings_nodup _ _ lines []).1).sublist (List.take_sublist _ _)
  · refine ⟨?_, (collect_headings_nodup _ _ lines []).1, rfl⟩
    exact List.pairwise_map.mpr (pairs_pages_sorted 0
      (fun t _ => if pathway_cond t then some "H1" else none) lines hord)

/-- Lines for the C3 witness: an invitation-style line on page 1 and a
numbered heading on page 2 (page-ordered). -/
def c3w_lines : List Line :=
  [⟨"YOU\x27RE INVITED", 18, "f", true, false, 1, 0, 14, "latin"⟩,
   ⟨"1. Introduction", 12, "f", false, false, 2, 0, 15, "latin"⟩]

/-- Witness for C3 on a concrete page-ordered document. -/
theorem c3_headings_sorted_and_deduped_witness :
    (extract_invitation_headings c3w_lines).Pairwise
      (fun h₁ h₂ => h₁.page ≤ h₂.page) :=
  ((c3_headings_sorted_and_deduped c3w_lines (by decide)).2.2.2.2.2.1).1

/-! ## C7 and C10: concrete general-genre scenarios -/

/-- The one-page document of the C7 scenario. -/
def c7_lines : List Line :=
  [⟨"1. Introduction", 18, "f", true, false, 1, 0, 15, "latin"⟩,
   ⟨"Some body text.", 11, "f", false, false, 1, 1 / 2, 15, "latin"⟩,
   ⟨"1.1 Background", 14, "f", false, false, 1, 7 / 10, 14, "latin"⟩]

section
attribute [local semireducible] Rat.add Rat.mul Rat.sub Rat.inv

/-- C7 (counterexample): the produced outline is not exactly the claimed
one, because the text cleaner appends its guaranteed trailing space to each
heading text. -/
theorem c7_outline_not_exact :
    extract_general_main_headings c7_lines ≠
      [⟨"H1", "1. Introduction", 0⟩, ⟨"H2", "1.1 Background", 0⟩] := by
  decide

/-- C7 (amended): on the scenario document the general classifier maps
`"1. Introduction"` to H1 and `"1.1 Background"` to H2 under thresholds
H1=18, H2=14, excludes the body line, and the produced outline is exactly
the claimed one up to the cleaner's guaranteed trailing space on each
heading text. -/
theorem c7_general_scenario :
    classify_general_main_heading "1. Introduction"
      ⟨"1. Introduction", 18, "f", true, false, 1, 0, 15, "latin"⟩
      (some ⟨18, 14, 14, 14⟩) = some "H1" ∧
    classify_general_main_heading "Some body text."
      ⟨"Some body text.", 11, "f", false, false, 1, 1 / 2, 15, "latin"⟩
      (some ⟨18, 14, 14, 14⟩) = none ∧
    classify_general_main_heading "1.1 Background"
      ⟨"1.1 Background", 14, "f", false, false, 1, 7 / 10, 14, "latin"⟩
      (some ⟨18, 14, 14, 14⟩) = some "H2" ∧
    extract_general_main_headings c7_lines =
      [⟨"H1", "1. Introduction ", 0⟩, ⟨"H2", "1.1 Background ", 0⟩] := by
  refine ⟨by decide, by decide, by decide, by decide⟩

/-- The C10 document: two distinct pre-clean texts whose cleaned forms
coincide (the second differs only by a trailing bare page number). -/
def c10_lines : List Line :=
  [⟨"1. Introduction", 12, "f", false, false, 1, 0, 15, "latin"⟩,
   ⟨"1. Introduction 2", 12, "f", false, false, 1, 1 / 2, 17, "latin"⟩]

/-- C10: deduplication happens on pre-clean text, so two distinct pre-clean
texts that clean to the same string both pass the seen-set and yield two
outline entries with identical cleaned text. -/
theorem c10_duplicate_cleaned_text :
    ("1. Introduction" : String) ≠ "1. Introduction 2" ∧
    clean_heading_text "1. Introduction" = clean_heading_text "1. Introduction 2" ∧
    extract_general_main_headings c10_lines =
      [⟨"H1", "1. Introduction ", 0⟩, ⟨"H1", "1. Introduction ", 0⟩] := by
  refine ⟨by decide, by decide, by decide⟩

end

/-! ## Document Analyzer (`analyze_document_structure` and
`_detect_document_type`, source lines 166-231) -/

/-- Embeds `_detect_document_type` (source lines 202-231): a fixed-priority
lexical test over the lowercase space-joined concatenation of line texts. -/
def detect_document_type (lines : List Line) : String :=
  let t : String := String.intercalate " " (lines.map (fun l => lower l.text))
  if containsStr t "request for proposal" || containsStr t "ontario digital library" ||
      containsStr t "rfp:" then "rfp_file3"
  else if ["application form", "signature", "date of birth", "designation",
      "name of the government"].any (fun k => containsStr t k) then "form"
  else if ["you\x27re invited", "party", "hope to see you", "trampoline park"].any
      (fun k => containsStr t k) then "invitation"
  else if ["foundation level", "syllabus", "qualifications", "learning objectives"].any
      (fun k => containsStr t k) then "academic"
  else if ["business plan", "appendix"].any (fun k => containsStr t k) then "rfp"
  else if ["pathway", "stem", "regular pathway", "distinction pathway"].any
      (fun k => containsStr t k) then "pathway"
  else "general"

/-- Embeds `statistics.median` on the size list. -/
def median (l : List ℚ) : ℚ :=
  let s := sort_keyed id l
  if s.length % 2 = 1 then s.getD (s.length / 2) 0
  else (s.getD (s.length / 2 - 1) 0 + s.getD (s.length / 2) 0) / 2

/-- Embeds `max(items, key=lambda x: x[1])[0]`: the first key attaining the
maximal count, in iteration order. -/
def first_max_count_key (l : List (ℚ × ℕ)) : ℚ :=
  match l with
  | [] => 0
  | p :: rest => (rest.foldl (fun b q => if q.2 > b.2 then q else b) p).1

/-- The `size_stats` sub-dict of the analysis.  `percentile_75` uses index
`int(0.75*n)` = `3*n/4` (0.75 is float-exact); `percentile_90` uses
`int(0.90*n)`, embedded as `9*n/10` (the float product can differ from the
exact value only by one index at exact multiples, which no downstream
consumer reads). -/
structure SizeStats where
  mean : ℚ
  med : ℚ
  mode : ℚ
  unique_sizes : ℕ
  percentile_75 : ℚ
  percentile_90 : ℚ
deriving DecidableEq, Repr

/-- The analysis dict built by `analyze_document_structure` for a non-empty
line list (the `structural_patterns` defaultdict is always empty and is
omitted). -/
structure Analysis where
  total_lines : ℕ
  pages : ℕ
  sizes : List (ℚ × ℕ)
  fonts : List (String × ℕ)
  bold_lines : ℕ
  avg_line_length : ℚ
  script_types : List (String × ℕ)
  avg_char_count : ℚ
  document_type : String
  size_stats : SizeStats
deriving DecidableEq, Repr

/-- Embeds `analyze_document_structure` (source lines 166-200).  `none`
models the `{}` returned for an empty line list (and by the `except`
handler, which is unreachable for total inputs); for non-empty lines the
size list is non-empty, so `size_stats` is always present. -/
def analyze_document_structure (lines : List Line) : Option Analysis :=
  if lines = [] then none
  else
    let sizes_list := lines.map (·.size)
    some
      { total_lines := lines.length
        pages := (dedup_first (lines.map (·.page))).length
        sizes := counter sizes_list
        fonts := counter (lines.map (·.font))
        bold_lines := (lines.filter (·.bold)).length
        avg_line_length := ((lines.map (fun l => ((l.text.length : ℚ)))).sum) / lines.length
        script_types := counter (lines.map (·.script_type))
        avg_char_count := ((lines.map (fun l => ((l.char_count : ℚ)))).sum) / lines.length
        document_type := detect_document_type lines
        size_stats :=
          { mean := sizes_list.sum / sizes_list.length
            med := median sizes_list
            mode := first_max_count_key (counter sizes_list)
            unique_sizes := (dedup_first sizes_list).length
            percentile_75 := (sort_keyed id sizes_list).getD (3 * sizes_list.length / 4) 0
            percentile_90 := (sort_keyed id sizes_list).getD (9 * sizes_list.length / 10) 0 } }

/-- Embeds the expansion `all_sizes.extend([size] * count)`. -/
def expand_counter (l : List (ℚ × ℕ)) : List ℚ :=
  l.foldr (fun p acc => List.replicate p.2 p.1 ++ acc) []

/-- Embeds `_get_size_percentile` (source lines 732-748): 0 when the
analysis dict is empty (no `"sizes"` key) or the size list is empty,
otherwise the percentage of size observations strictly below `size`. -/
def get_size_percentile (size : ℚ) (analysis : Option Analysis) : ℚ :=
  match analysis with
  | none => 0
  | some a =>
    let all_sizes := sort_keyed id (expand_counter a.sizes)
    if all_sizes = [] then 0
    else ((all_sizes.countP (fun s => decide (s < size))) : ℚ) / all_sizes.length * 100

/-! ## Title Extractors (source lines 257-388 and 682-713) -/

/-- Embeds `first_page_lines = [line for line in lines[:50] if line["page"] == 1]`. -/
def first_page_lines (lines : List Line) : List Line :=
  (lines.take 50).filter (fun l => l.page == 1)

/-- The candidate filter of the generic title path (source lines 276-278):
length in `[5, 200]`, not a leading-number pattern, not boilerplate. -/
def title_candidate_ok (line : Line) : Bool :=
  let text := strip line.text
  decide (5 ≤ line.char_count) && decide (line.char_count ≤ 200) &&
    !is_numbered_pattern text && !is_universal_metadata text

/-- The generic title score (source lines 280-298).  The float position
bounds `0.15` and `0.3` are the rationals `3/20` and `3/10`. -/
def generic_title_score (line : Line) (analysis : Option Analysis) : ℕ :=
  (match analysis with
   | some _ =>
     if get_size_percentile line.size analysis ≥ 95 then 5
     else if get_size_percentile line.size analysis ≥ 85 then 3
     else 0
   | none => 0) +
  (if line.bold then 3 else 0) +
  (if line.relative_y < 3 / 20 then 4 else if line.relative_y < 3 / 10 then 2 else 0) +
  (if is_all_uppercase (strip line.text) && decide (line.char_count ≤ 150) then 3 else 0)

/-- The `(text, score, i)` candidate triples of the generic title path. -/
def generic_title_candidates (lines : List Line) (analysis : Option Analysis) :
    List (String × ℕ × ℕ) :=
  (first_page_lines lines).enum.filterMap (fun p =>
    if title_candidate_ok p.2 then
      some (strip p.2.text, generic_title_score p.2 analysis, p.1)
    else none)

/-- Embeds `candidates.sort(key=lambda x: (-x[1], x[2])); candidates[0]`:
the indices are strictly increasing in list order, so the stable sort's
first element is the earliest candidate of maximal score, which the strict
left fold computes. -/
def pick_best_candidate : List (String × ℕ × ℕ) → Option (String × ℕ × ℕ)
  | [] => none
  | c :: cs => some (cs.foldl (fun b c2 => if c2.2.1 > b.2.1 then c2 else b) c)

/-- The generic body of `_extract_multilingual_title` (source lines 269-307). -/
def extract_generic_title (lines : List Line) (analysis : Option Analysis) : String :=
  match pick_best_candidate (generic_title_candidates lines analysis) with
  | some c => clean_heading_text c.1
  | none => "Untitled Document"

/-- Embeds the first-30-lines page-1 window of `_extract_academic_title`. -/
def academic_first_page_lines (lines : List Line) : List Line :=
  (lines.take 30).filter (fun l => l.page == 1)

def academic_title_keywords : List String :=
  ["overview", "foundation", "level", "extensions", "syllabus",
   "qualifications", "examination", "training", "course"]

/-- The skip filter of `_extract_academic_title` (source lines 321-325),
negated into candidate form. -/
def academic_title_candidate_ok (line : Line) : Bool :=
  let text := strip line.text
  !(decide (line.char_count < 5) || decide (200 < line.char_count) ||
    is_numbered_pattern text || is_universal_metadata text)

/-- The academic title score (source lines 327-366). -/
def academic_title_score (line : Line) (analysis : Option Analysis) : ℕ :=
  let tlow := lower (strip line.text)
  let km := (academic_title_keywords.filter (fun k => containsStr tlow k)).length
  (if 2 ≤ km then 10 else if 1 ≤ km then 5 else 0) +
  (match analysis with
   | some _ =>
     if get_size_percentile line.size analysis ≥ 90 then 8
     else if get_size_percentile line.size analysis ≥ 75 then 5
     else 0
   | none => 0) +
  (if line.bold then 4 else 0) +
  (if line.relative_y < 1 / 5 then 6 else if line.relative_y < 2 / 5 then 3 else 0) +
  (if decide (15 ≤ line.char_count) && decide (line.char_count ≤ 100) then 3 else 0) +
  (if ["overview", "foundation level", "syllabus"].any (fun k => containsStr tlow k)
    then 5 else 0)

def academic_title_candidates (lines : List Line) (analysis : Option Analysis) :
    List (String × ℕ × ℕ) :=
  (academic_first_page_lines lines).enum.filterMap (fun p =>
    if academic_title_candidate_ok p.2 then
      some (strip p.2.text, academic_title_score p.2 analysis, p.1)
    else none)

/-- Embeds `_extract_academic_title` (source lines 311-388); the
"special formatting" conditional of the source returns the same cleaned
title in both branches. -/
def extract_academic_title (lines : List Line) (analysis : Option Analysis) : String :=
  match pick_best_candidate (academic_title_candidates lines analysis) with
  | some c => clean_heading_text c.1
  | none =>
    match (academic_first_page_lines lines).find? (fun l =>
        (containsStr (lower (strip l.text)) "overview" ||
         containsStr (lower (strip l.text)) "foundation") &&
        decide (10 < (strip l.text).length)) with
    | some l => clean_heading_text (strip l.text)
    | none => "Academic Document"

/-- The marker test of `_extract_file3_title` (source lines 685-695): the
`if`/`elif` chain appends the line text on any of the five markers. -/
def file3_marker (text : String) : Bool :=
  containsStr (lower text) "rfp:" || containsStr (lower text) "request for proposal" ||
    containsStr (lower text) "to present a proposal" ||
    containsStr (lower text) "developing the business plan" ||
    containsStr (lower text) "ontario digital library"

def file3_title_parts (lines : List Line) : List String :=
  ((lines.take 30).map (fun l => strip l.text)).filter file3_marker

/-- Case-insensitive literal matcher (the corruption regex is compiled with
`re.IGNORECASE`); the pattern is given lowercased. -/
def prefOfCI : List Char → List Char → Bool
  | [], _ => true
  | _ :: _, [] => false
  | a :: as, b :: bs => a == b.toLower && prefOfCI as bs

def matchCI (w : List Char) (l : List Char) : Option (List Char) :=
  if prefOfCI w l then some (l.drop w.length) else none

def skipWSStar (l : List Char) : Option (List Char) := some (l.dropWhile isWS)

def skipWSPlus (l : List Char) : Option (List Char) :=
  let r := l.dropWhile isWS
  if r.length = l.length then none else some r

/-- Lazy `.*?` followed by the continuation `m`: try `m` at each position,
shortest consumption first, as the non-greedy quantifier does. -/
def lazyUntil (m : List Char → Option (List Char)) : List Char → Option (List Char)
  | [] => m []
  | c :: rest =>
    match m (c :: rest) with
    | some r => some r
    | none => lazyUntil m rest

/-- The `oposal` tail of the corruption pattern. -/
def corr_part3 (l : List Char) : Option (List Char) := matchCI "oposal".toList l

/-- The `r\s+Pr.*?oposal` tail. -/
def corr_part2 (l : List Char) : Option (List Char) :=
  (matchCI "r".toList l).bind skipWSPlus |>.bind (matchCI "pr".toList) |>.bind
    (lazyUntil corr_part3)

/-- The `quest\s+f.*?r\s+Pr.*?oposal` tail. -/
def corr_part1 (l : List Char) : Option (List Char) :=
  (matchCI "quest".toList l).bind skipWSPlus |>.bind (matchCI "f".toList) |>.bind
    (lazyUntil corr_part2)

/-- Anchored match of the whole corruption pattern
`RFP:\s*R\s*RFP:\s*R.*?quest\s+f.*?r\s+Pr.*?oposal` (case-insensitive),
returning the rest of the input after the match. -/
def corr_match (l : List Char) : Option (List Char) :=
  (matchCI "rfp:".toList l).bind skipWSStar |>.bind (matchCI "r".toList) |>.bind
    skipWSStar |>.bind (matchCI "rfp:".toList) |>.bind skipWSStar |>.bind
    (matchCI "r".toList) |>.bind (lazyUntil corr_part1)

/-- Embeds `re.sub` with the corruption pattern: scan left to right,
replacing each non-overlapping match with `RFP:Request for Proposal`. -/
def corr_sub : ℕ → List Char → List Char
  | 0, l => l
  | _ + 1, [] => []
  | fuel + 1, c :: rest =>
    match corr_match (c :: rest) with
    | some remaining => "RFP:Request for Proposal".toList ++ corr_sub fuel remaining
    | none => c :: corr_sub fuel rest

/-- Embeds `_clean_title_file3` (source lines 703-713). -/
def clean_title_file3 (text : String) : String :=
  let t1 := collapseWS (stripChars text.toList)
  let t2 := corr_sub t1.length t1
  let t3 := if prefOf "RFP:".toList t2 then t2
    else "RFP:Request for Proposal ".toList ++ t2
  let t4 := if prefOf [' ', ' '] t3.reverse then t3
    else (t3.reverse.dropWhile isWS).reverse ++ [' ', ' ']
  ⟨t4⟩

/-- Embeds `_extract_file3_title` (source lines 682-701). -/
def extract_file3_title (lines : List Line) : String :=
  let parts := file3_title_parts lines
  if parts ≠ [] then clean_title_file3 (String.intercalate " " parts)
  else "RFP:Request for Proposal To Present a Proposal for Developing the Business Plan for the Ontario Digital Library  "

/-- Embeds `_extract_multilingual_title` (source lines 257-309): empty
documents yield the literal fallback before any genre dispatch; the
`except` handler (also "Untitled Document") is unreachable for total
inputs. -/
def extract_multilingual_title (lines : List Line) (analysis : Option Analysis)
    (doc_type : String) : String :=
  if lines = [] then "Untitled Document"
  else if doc_type = "rfp_file3" then extract_file3_title lines
  else if doc_type = "academic" then extract_academic_title lines analysis
  else extract_generic_title lines analysis

/-! ## Pipeline (`extract_main_headings_only` and `extract_outline_robust`,
source lines 233-255 and 778-804) -/

/-- Embeds `doc_analysis.get("document_type", "general")`. -/
def doc_type_of (analysis : Option Analysis) : String :=
  match analysis with
  | none => "general"
  | some a => a.document_type

/-- Embeds `extract_main_headings_only` (source lines 233-255); its
`except` handler (`("Error Processing Document", [])`) is unreachable for
total inputs. -/
def extract_main_headings_only (lines : List Line) (analysis : Option Analysis) :
    String × List Heading :=
  let doc_type := doc_type_of analysis
  let title := extract_multilingual_title lines analysis doc_type
  if doc_type = "form" then (title, [])
  else if doc_type = "invitation" then (title, extract_invitation_headings lines)
  else if doc_type = "academic" then (title, extract_academic_main_headings lines)
  else if doc_type = "rfp_file3" then (title, extract_file3_specific_headings lines)
  else if doc_type = "rfp" then (title, extract_rfp_main_headings lines)
  else if doc_type = "pathway" then (title, extract_pathway_headings lines)
  else (title, extract_general_main_headings lines)

/-- Coarse document metadata returned by the text source. -/
structure DocInfo where
  page_count : ℕ
  creator : String
  producer : String
deriving DecidableEq, Repr

/-- The JSON object produced per document; `error`/`file` are present only
on the failure path. -/
structure ResultObj where
  title : String
  outline : List Heading
  error : Option String
  file : Option String
deriving DecidableEq, Repr

/-- Embeds `extract_outline_robust` (source lines 778-804).  The upstream
`extract_text_with_metadata` call is the only computation whose exception
reaches this handler (every inner helper catches its own), so the input is
its result as an `Except`: a raised exception maps to the error object with
`error` and `file` fields, an empty line list to the empty-document object,
and otherwise the analysis and title/heading stages run. -/
def extract_outline_robust (extraction : Except String (List Line × DocInfo))
    (pdf_path : String) : ResultObj :=
  match extraction with
  | .error e => ⟨"Error Processing Document", [], some e, some pdf_path⟩
  | .ok (lines, _) =>
    if lines = [] then ⟨"Empty Document", [], none, none⟩
    else
      let analysis := analyze_document_structure lines
      let r := extract_main_headings_only lines analysis
      ⟨r.1, r.2, none, none⟩

/-! ## C5, C6, C8, C9: pipeline shape, error handling, boilerplate filter -/

/-- C5: a successfully opened document from which zero usable lines are
extracted yields exactly the object with title `"Empty Document"` and an
empty outline, with no `error`/`file` fields — the empty document is not
treated as an error. -/
theorem c5_empty_document (info : DocInfo) (path : String) :
    extract_outline_robust (.ok ([], info)) path =
      ⟨"Empty Document", [], none, none⟩ := rfl

/-- C9: the top-level single-document extraction is total by construction
and always carries a `title` string and an `outline` list; an upstream
extraction exception maps to the `"Error Processing Document"` object with
the extra `error` and `file` fields, and on the success path those fields
are never set. -/
theorem c9_robust_total_shape :
    (∀ (e path : String), extract_outline_robust (.error e) path =
      ⟨"Error Processing Document", [], some e, some path⟩) ∧
    (∀ (lines : List Line) (info : DocInfo) (path : String),
      (extract_outline_robust (.ok (lines, info)) path).error = none ∧
      (extract_outline_robust (.ok (lines, info)) path).file = none) := by
  refine ⟨fun e path => rfl, fun lines info path => ?_⟩
  cases lines with
  | nil => exact ⟨rfl, rfl⟩
  | cons a rest =>
    show (if a :: rest = [] then (⟨"Empty Document", [], none, none⟩ : ResultObj)
      else ⟨(extract_main_headings_only (a :: rest) (analyze_document_structure (a :: rest))).1,
        (extract_main_headings_only (a :: rest) (analyze_document_structure (a :: rest))).2,
        none, none⟩).error = none ∧
      (if a :: rest = [] then (⟨"Empty Document", [], none, none⟩ : ResultObj)
      else ⟨(extract_main_headings_only (a :: rest) (analyze_document_structure (a :: rest))).1,
        (extract_main_headings_only (a :: rest) (analyze_document_structure (a :: rest))).2,
        none, none⟩).file = none
    rw [if_neg (by simp)]
    exact ⟨rfl, rfl⟩

/-- C6: the degraded-value wiring of the analysis/title/heading stages.
The empty analysis mapping is produced exactly when no lines exist; a
missing analysis makes the size percentile 0; an empty candidate set (or an
empty document) makes the title the literal `"Untitled Document"`; and the
heading stage is total even under the degraded (empty) analysis, falling
back to the general genre, so a degraded computation never aborts the
document.  The Python `except` handlers around these stages return exactly
these defaults; their bodies cannot raise on type-correct data, which the
embedding makes total. -/
theorem c6_local_recovery_defaults :
    (analyze_document_structure [] = none) ∧
    (∀ s : ℚ, get_size_percentile s none = 0) ∧
    (∀ (analysis : Option Analysis) (dt : String),
      extract_multilingual_title [] analysis dt = "Untitled Document") ∧
    (∀ (lines : List Line) (analysis : Option Analysis),
      generic_title_candidates lines analysis = [] →
        extract_generic_title lines analysis = "Untitled Document") ∧
    (∀ lines : List Line, extract_main_headings_only lines none =
      (extract_multilingual_title lines none "general", extract_general_main_headings lines)) := by
  refine ⟨rfl, fun s => rfl, fun analysis dt => rfl, ?_, fun lines => rfl⟩
  intro lines analysis hempty
  unfold extract_generic_title
  rw [hempty]
  rfl

/-- A one-line document whose only line is boilerplate, for the C6 witness. -/
def c6w_lines : List Line := [⟨"Page 3", 12, "f", false, false, 1, 0, 6, "latin"⟩]

/-- Witness for C6: the concrete boilerplate-only document has no title
candidates, so the generic title extractor returns the safe default. -/
theorem c6_local_recovery_defaults_witness :
    extract_generic_title c6w_lines none = "Untitled Document" :=
  c6_local_recovery_defaults.2.2.2.1 c6w_lines none (by decide)

/-- C8: the three scenario strings are universal metadata, and a line whose
stripped text is any of them is excluded from title candidacy in each
genre's title extractor: the generic and academic candidate filters reject
it (via the boilerplate test), and the rfp-variant-3 extractor's marker
scan never selects it. -/
theorem c8_boilerplate_excludes_metadata :
    (is_universal_metadata "Page 3" = true ∧
     is_universal_metadata "Draft v1.2" = true ∧
     is_universal_metadata "2024" = true) ∧
    ∀ line : Line,
      (strip line.text = "Page 3" ∨ strip line.text = "Draft v1.2" ∨
        strip line.text = "2024") →
      title_candidate_ok line = false ∧
      academic_title_candidate_ok line = false ∧
      file3_marker (strip line.text) = false := by
  refine ⟨⟨by decide, by decide, by decide⟩, ?_⟩
  intro line h
  rcases h with h | h | h <;>
    refine ⟨?_, ?_, ?_⟩ <;>
    simp only [title_candidate_ok, academic_title_candidate_ok, h] <;>
    simp [show is_universal_metadata "Page 3" = true from by decide,
      show is_universal_metadata "Draft v1.2" = true from by decide,
      show is_universal_metadata "2024" = true from by decide,
      show file3_marker "Page 3" = false from by decide,
      show file3_marker "Draft v1.2" = false from by decide,
      show file3_marker "2024" = false from by decide]

/-- Witness for C8 at a concrete `"Page 3"` line. -/
theorem c8_boilerplate_excludes_metadata_witness :
    title_candidate_ok ⟨"Page 3", 12, "f", false, false, 1, 0, 6, "latin"⟩ = false :=
  (c8_boilerplate_excludes_metadata.2 ⟨"Page 3", 12, "f", false, false, 1, 0, 6, "latin"⟩
    (Or.inl (by decide))).1

end PDFExtractor
